import Mathlib

/-!
Verification of `pkg/cmdutil/flags.go`: pflag value adapters used by the CLI.
Each Go adapter struct holds a pointer to a caller-owned storage location; the
shallow embedding inlines the pointed-to storage as a structure field, and each
`Set` method becomes a function returning the updated receiver together with
the `error` result (`none` stands for the `nil` error of Go).
-/

/-- Errors produced by the adapters.  In Go these are
`strconv.NumError` (from `strconv.ParseBool`, message
`strconv.ParseBool: parsing <value>: invalid syntax`),
`fmt.Errorf("valid values are %s", formatValuesForUsageDocs(options))` and
`fmt.Errorf("%q does not match regexp format", value)`; each constructor
carries exactly the data the Go message is formatted from. -/
inductive GoError where
  | parseBoolSyntax (num : String)
  | invalidEnumValue (options : List String)
  | patternMismatch (value : String)
deriving DecidableEq, Repr

namespace strconv

/-- Go `strconv.ParseBool`: accepts exactly the literals
1, t, T, TRUE, true, True, 0, f, F, FALSE, false, False; on any other input
it returns the zero value `false` together with a syntax error, mirroring
the Go multiple return `(bool, error)`. -/
def ParseBool (str : String) : Bool × Option GoError :=
  match str with
  | "1" | "t" | "T" | "true" | "TRUE" | "True" => (true, none)
  | "0" | "f" | "F" | "false" | "FALSE" | "False" => (false, none)
  | _ => (false, some (.parseBoolSyntax str))

end strconv

namespace strings

/-- Go `strings.EqualFold`, restricted to ASCII case folding (the inputs the
repository compares are plain ASCII option names): two strings are equal
after mapping every character to lower case. -/
def EqualFold (s t : String) : Bool :=
  s.data.map Char.toLower == t.data.map Char.toLower

/-- Character-list core of Go `strings.Split` for a one-character separator:
repeatedly cut at the first occurrence of the separator, so the empty string
splits into the one-element list of the empty string and a trailing separator
produces a trailing empty piece. -/
def splitList (sep : Char) : List Char → List (List Char)
  | [] => [[]]
  | c :: cs =>
    let rest := splitList sep cs
    if c = sep then [] :: rest
    else
      match rest with
      | [] => [[c]]
      | x :: xs => (c :: x) :: xs

/-- Go `strings.Split` with a non-empty separator: cut around every instance
of the separator.  The repository only calls it with the one-character
separator comma, so only that case is modelled; for any other separator the
whole string is returned unsplit. -/
def Split (s sep : String) : List String :=
  match sep.data with
  | [sc] => (splitList sc s.data).map List.asString
  | _ => [s]

/-- Go `strings.Join`: the empty list joins to the empty string, and
otherwise the tail is folded onto the head inserting the separator. -/
def Join (elems : List String) (sep : String) : String :=
  match elems with
  | [] => ""
  | x :: xs => xs.foldl (fun acc s => acc ++ sep ++ s) x

end strings

/-- Go `formatValuesForUsageDocs`: `fmt.Sprintf("{%s}", strings.Join(values, "|"))`. -/
def formatValuesForUsageDocs (values : List String) : String :=
  "\x7b" ++ strings.Join values "|" ++ "\x7d"

/-- Go `isIncluded`: loops over `opts` and returns true as soon as one option
equals `value` under `strings.EqualFold`. -/
def isIncluded (value : String) (opts : List String) : Bool :=
  opts.any (fun opt => strings.EqualFold opt value)

/-- Go `stringValue`: holds `**string`; the pointed-to `*string` is `none`
when the flag was never set. -/
structure stringValue where
  string : Option String
deriving DecidableEq, Repr

/-- Go `(*stringValue).Set`: `*s.string = &value; return nil`. -/
def stringValue.Set (_s : stringValue) (value : String) : stringValue × Option GoError :=
  ({ string := some value }, none)

/-- Go `(*stringValue).String`: empty string when the target is nil. -/
def stringValue.String (s : stringValue) : String :=
  match s.string with
  | none => ""
  | some v => v

/-- Go `boolValue`: holds `**bool`; `none` when the flag was never set. -/
structure boolValue where
  bool : Option Bool
deriving DecidableEq, Repr

/-- Go `(*boolValue).Set`:
`v, err := strconv.ParseBool(value); *b.bool = &v; return err` — note the
parsed value is stored before the error is returned. -/
def boolValue.Set (_b : boolValue) (value : String) : boolValue × Option GoError :=
  let r := strconv.ParseBool value
  ({ bool := some r.1 }, r.2)

/-- Go `(*boolValue).String`: "false" when nil or false, "true" when true. -/
def boolValue.String (b : boolValue) : String :=
  match b.bool with
  | none => "false"
  | some true => "true"
  | some false => "false"

/-- Go `regexpValue`: holds `*string` and a compiled `*regexp.Regexp`,
modelled by its `MatchString` predicate. -/
structure regexpValue where
  value : String
  re : String → Bool

/-- Go `(*regexpValue).Set`: error (carrying the rejected value) when the
pattern does not match, otherwise store the value. -/
def regexpValue.Set (r : regexpValue) (value : String) : regexpValue × Option GoError :=
  if !(r.re value) then (r, some (.patternMismatch value))
  else ({ r with value := value }, none)

/-- Go `(*regexpValue).String`: the current target value. -/
def regexpValue.String (r : regexpValue) : String :=
  r.value

/-- Go `enumValue`: holds `*string` and the option list. -/
structure enumValue where
  string : String
  options : List String
deriving DecidableEq, Repr

/-- Go `(*enumValue).Set`: reject with the allowed set when `value` is not
included (case-insensitively) in the options, otherwise store it verbatim. -/
def enumValue.Set (e : enumValue) (value : String) : enumValue × Option GoError :=
  if !isIncluded value e.options then (e, some (.invalidEnumValue e.options))
  else ({ e with string := value }, none)

/-- Go `(*enumValue).String`: the current target value. -/
def enumValue.String (e : enumValue) : String :=
  e.string

/-- Go `enumMultiValue`: holds `*[]string` and the option list. -/
structure enumMultiValue where
  value : List String
  options : List String
deriving DecidableEq, Repr

/-- Go `(*enumMultiValue).Set`: split on comma, reject (with the allowed set,
leaving the target untouched) as soon as one item is not included,
otherwise replace the whole target by the split. -/
def enumMultiValue.Set (e : enumMultiValue) (value : String) : enumMultiValue × Option GoError :=
  let items := strings.Split value ","
  if items.all (fun item => isIncluded item e.options) then
    ({ e with value := items }, none)
  else (e, some (.invalidEnumValue e.options))

/-- Go `(*enumMultiValue).String`: `fmt.Sprintf("{%s}", strings.Join(*e.value, ", "))`. -/
def enumMultiValue.String (e : enumMultiValue) : String :=
  "\x7b" ++ strings.Join e.value ", " ++ "\x7d"

/-- Go `StringEnumFlag`: writes the default into the target (`*p =
defaultValue`) with no validation, then registers the flag; the cobra
registration and usage string are outside the model. -/
def StringEnumFlag (defaultValue : String) (options : List String) : enumValue :=
  { string := defaultValue, options := options }

/-- Go `StringSliceEnumFlag`: writes the defaults into the target with no
validation; the cobra registration is outside the model. -/
def StringSliceEnumFlag (defaultValues options : List String) : enumMultiValue :=
  { value := defaultValues, options := options }

/-- Go `StringRegexpFlag`: writes the default into the target with no
validation against the pattern; the cobra registration is outside the model. -/
def StringRegexpFlag (defaultValue : String) (re : String → Bool) : regexpValue :=
  { value := defaultValue, re := re }

/-- The exact lexical forms accepted by Go `strconv.ParseBool`, used to
characterise the nilable bool adapter. -/
def goBoolLiterals : List String :=
  ["1", "t", "T", "true", "TRUE", "True", "0", "f", "F", "false", "FALSE", "False"]

/-- MatchString of the compiled pattern `^\d+$` from the regexp example of the specification: one or more decimal digits and nothing else. -/
def digitsOnly (s : String) : Bool :=
  !s.isEmpty && s.data.all Char.isDigit

theorem strconv.ParseBool_isSome_val (v : String) :
    (strconv.ParseBool v).2.isSome = true → (strconv.ParseBool v).1 = false := by
  unfold strconv.ParseBool
  split <;> simp

theorem strconv.ParseBool_none_iff (v : String) :
    (strconv.ParseBool v).2 = none ↔ v ∈ goBoolLiterals := by
  unfold strconv.ParseBool
  split <;> simp_all [goBoolLiterals]

theorem strconv.ParseBool_not_literal (v : String) (h : v ∉ goBoolLiterals) :
    strconv.ParseBool v = (false, some (.parseBoolSyntax v)) := by
  unfold strconv.ParseBool
  split <;> simp_all [goBoolLiterals]

/-- C1 counterexample: the nilable bool adapter changes its storage on an
erroneous set — setting "yes" over a stored `true` returns an error and yet
leaves the storage holding `false`. -/
theorem C1_counterexample :
    (boolValue.Set { bool := some true } "yes").2.isSome = true ∧
    (boolValue.Set { bool := some true } "yes").1 ≠ { bool := some true } := by
  decide

/-- C1 (amended): for the nilable string adapter set never errors; for the
enum string, enum string-slice and regexp adapters an erroneous set leaves
the storage unchanged; the nilable bool adapter instead always stores the
parsed result, which on error is the zero value `false`. -/
theorem C1_amended :
    (∀ (s : stringValue) (v : String), (s.Set v).2 = none) ∧
    (∀ (e : enumValue) (v : String), (e.Set v).2.isSome = true → (e.Set v).1 = e) ∧
    (∀ (e : enumMultiValue) (v : String), (e.Set v).2.isSome = true → (e.Set v).1 = e) ∧
    (∀ (r : regexpValue) (v : String), (r.Set v).2.isSome = true → (r.Set v).1 = r) ∧
    (∀ (b : boolValue) (v : String), (b.Set v).2.isSome = true →
      (b.Set v).1 = { bool := some false }) := by
  refine ⟨fun s v => rfl, fun e v h => ?_, fun e v h => ?_, fun r v h => ?_, fun b v h => ?_⟩
  · by_cases hc : isIncluded v e.options <;> simp_all [enumValue.Set]
  · cases hc : (strings.Split v ",").all (fun item => isIncluded item e.options) with
    | false => simp [enumMultiValue.Set, hc]
    | true => simp [enumMultiValue.Set, hc] at h
  · by_cases hc : r.re v <;> simp_all [regexpValue.Set]
  · have h2 : (strconv.ParseBool v).2.isSome = true := h
    have hv := strconv.ParseBool_isSome_val v h2
    simp [boolValue.Set, hv]

theorem C1_amended_witness :
    (enumValue.Set { string := "a", options := ["a"] } "z").1 = { string := "a", options := ["a"] } ∧
    (enumMultiValue.Set { value := ["a"], options := ["a"] } "z").1
      = { value := ["a"], options := ["a"] } ∧
    (regexpValue.Set { value := "1", re := fun s => s == "1" } "z").1
      = { value := "1", re := fun s => s == "1" } ∧
    (boolValue.Set { bool := some true } "nope").1 = { bool := some false } :=
  ⟨C1_amended.2.1 _ "z" (by decide),
   C1_amended.2.2.1 _ "z" (by decide),
   C1_amended.2.2.2.1 _ "z" (by rfl),
   C1_amended.2.2.2.2 _ "nope" (by decide)⟩

/-- C2 counterexample: "tRuE" is a casing of "true" (they are equal under
case folding) yet the nilable bool adapter rejects it, because Go
`strconv.ParseBool` accepts only its twelve exact lexical forms. -/
theorem C2_counterexample :
    strings.EqualFold "tRuE" "true" = true ∧
    (boolValue.Set { bool := none } "tRuE").2 = some (.parseBoolSyntax "tRuE") := by
  decide

/-- C2 (amended): set on the nilable bool adapter succeeds exactly on the
twelve exact literals 1, t, T, true, TRUE, True, 0, f, F, false, FALSE,
False (not on arbitrary casings such as "tRuE"), and returns the parse
error for every other string. -/
theorem C2_amended (b : boolValue) (v : String) :
    ((b.Set v).2 = none ↔ v ∈ goBoolLiterals) ∧
    (v ∉ goBoolLiterals → (b.Set v).2 = some (.parseBoolSyntax v)) := by
  constructor
  · exact strconv.ParseBool_none_iff v
  · intro h
    show (strconv.ParseBool v).2 = _
    rw [strconv.ParseBool_not_literal v h]

theorem C2_amended_witness :
    (boolValue.Set { bool := none } "t").2 = none ∧
    (boolValue.Set { bool := none } "2").2 = some (.parseBoolSyntax "2") :=
  ⟨(C2_amended { bool := none } "t").1.mpr (by decide),
   (C2_amended { bool := none } "2").2 (by decide)⟩

/-- C3: the enum string-slice adapter splits on comma; it succeeds iff every
item is included (case-insensitively) in the options; on success the target
becomes exactly the split sequence (order, duplicates and casing preserved);
on failure it returns the invalid-enum error carrying the allowed set and
leaves the target untouched. -/
theorem C3_enumMultiValue_Set (e : enumMultiValue) (v : String) :
    ((e.Set v).2 = none ↔
      ∀ item ∈ strings.Split v ",", isIncluded item e.options = true) ∧
    ((e.Set v).2 = none → (e.Set v).1 = { e with value := strings.Split v "," }) ∧
    ((e.Set v).2 ≠ none →
      (e.Set v).2 = some (.invalidEnumValue e.options) ∧ (e.Set v).1 = e) := by
  cases hc : (strings.Split v ",").all (fun item => isIncluded item e.options) with
  | false =>
    have hx : ¬ ∀ item ∈ strings.Split v ",", isIncluded item e.options = true := by
      simpa [List.all_eq_true] using hc
    refine ⟨by simp [enumMultiValue.Set, hc, hx], ?_, ?_⟩ <;>
      simp [enumMultiValue.Set, hc]
  | true =>
    have hx : ∀ item ∈ strings.Split v ",", isIncluded item e.options = true := by
      simpa [List.all_eq_true] using hc
    refine ⟨by simp only [enumMultiValue.Set, hc]; simpa using hx, ?_, ?_⟩ <;>
      simp [enumMultiValue.Set, hc]

theorem C3_witness :
    (enumMultiValue.Set { value := [], options := ["a", "b"] } "A,b").1
      = { value := ["A", "b"], options := ["a", "b"] } ∧
    (enumMultiValue.Set { value := ["a"], options := ["a", "b"] } "a,c").2
      = some (.invalidEnumValue ["a", "b"]) ∧
    (enumMultiValue.Set { value := ["a"], options := ["a", "b"] } "a,c").1
      = { value := ["a"], options := ["a", "b"] } := by
  refine ⟨?_, ?_, ?_⟩
  · exact (C3_enumMultiValue_Set { value := [], options := ["a", "b"] } "A,b").2.1 (by decide)
  · exact ((C3_enumMultiValue_Set { value := ["a"], options := ["a", "b"] } "a,c").2.2
      (by decide)).1
  · exact ((C3_enumMultiValue_Set { value := ["a"], options := ["a", "b"] } "a,c").2.2
      (by decide)).2

/-- C4: the enum string adapter succeeds iff the value equals some option
under case folding; on success it stores the value verbatim (so rendering
returns it exactly) and keeps the options; on mismatch it returns the
invalid-enum error carrying the allowed set and leaves the target untouched. -/
theorem C4_enumValue_Set (e : enumValue) (v : String) :
    ((e.Set v).2 = none ↔ ∃ opt ∈ e.options, strings.EqualFold opt v = true) ∧
    (isIncluded v e.options = true →
      (e.Set v).1 = { e with string := v } ∧ (e.Set v).1.String = v) ∧
    (isIncluded v e.options = false →
      (e.Set v).2 = some (.invalidEnumValue e.options) ∧ (e.Set v).1 = e) := by
  cases hc : isIncluded v e.options with
  | false =>
    have hx : ¬ ∃ opt ∈ e.options, strings.EqualFold opt v = true := by
      simpa [isIncluded, List.any_eq_true] using hc
    refine ⟨by simp [enumValue.Set, hc, hx], ?_, ?_⟩ <;>
      simp [enumValue.Set, enumValue.String, hc]
  | true =>
    have hx : ∃ opt ∈ e.options, strings.EqualFold opt v = true := by
      simpa [isIncluded, List.any_eq_true] using hc
    refine ⟨by simp [enumValue.Set, hc, hx], ?_, ?_⟩ <;>
      simp [enumValue.Set, enumValue.String, hc]

theorem C4_witness :
    (enumValue.Set { string := "a", options := ["a", "b"] } "B").2 = none ∧
    (enumValue.Set { string := "a", options := ["a", "b"] } "B").1.String = "B" ∧
    (enumValue.Set { string := "a", options := ["a", "b"] } "z").2
      = some (.invalidEnumValue ["a", "b"]) ∧
    (enumValue.Set { string := "a", options := ["a", "b"] } "z").1
      = { string := "a", options := ["a", "b"] } := by
  refine ⟨?_, ?_, ?_, ?_⟩
  · exact (C4_enumValue_Set { string := "a", options := ["a", "b"] } "B").1.mpr
      ⟨"b", by decide, by decide⟩
  · exact ((C4_enumValue_Set { string := "a", options := ["a", "b"] } "B").2.1 (by decide)).2
  · exact ((C4_enumValue_Set { string := "a", options := ["a", "b"] } "z").2.2 (by decide)).1
  · exact ((C4_enumValue_Set { string := "a", options := ["a", "b"] } "z").2.2 (by decide)).2

/-- C5: set on the nilable string adapter always succeeds and afterwards the
optional target is present and holds exactly the given value. -/
theorem C5_stringValue_Set (s : stringValue) (v : String) :
    (s.Set v).2 = none ∧ (s.Set v).1.string = some v ∧ (s.Set v).1.String = v :=
  ⟨rfl, rfl, rfl⟩

/-- C6: the regexp adapter succeeds and stores the value iff the pattern
matches it; on mismatch it returns the pattern-mismatch error carrying the
rejected value and leaves the target (value and pattern) untouched. -/
theorem C6_regexpValue_Set (r : regexpValue) (v : String) :
    ((r.Set v).2 = none ↔ r.re v = true) ∧
    (r.re v = true →
      (r.Set v).1.value = v ∧ (r.Set v).1.re = r.re ∧ (r.Set v).1.String = v) ∧
    (r.re v = false → (r.Set v).2 = some (.patternMismatch v) ∧ (r.Set v).1 = r) := by
  cases hc : r.re v <;> simp [regexpValue.Set, regexpValue.String, hc]

theorem C6_witness :
    (regexpValue.Set { value := "", re := digitsOnly } "123").1.String = "123" ∧
    (regexpValue.Set { value := "7", re := digitsOnly } "12a").2
      = some (.patternMismatch "12a") ∧
    (regexpValue.Set { value := "7", re := digitsOnly } "12a").1
      = { value := "7", re := digitsOnly } := by
  refine ⟨?_, ?_, ?_⟩
  · exact ((C6_regexpValue_Set { value := "", re := digitsOnly } "123").2.1 (by decide)).2.2
  · exact ((C6_regexpValue_Set { value := "7", re := digitsOnly } "12a").2.2 (by decide)).1
  · exact ((C6_regexpValue_Set { value := "7", re := digitsOnly } "12a").2.2 (by decide)).2

theorem strings.Join_eq_intercalate (xs : List String) (sep : String) :
    strings.Join xs sep = String.intercalate sep xs := by
  cases xs with
  | nil => rfl
  | cons x xs =>
    show xs.foldl (fun acc s => acc ++ sep ++ s) x = String.intercalate.go x sep xs
    induction xs generalizing x with
    | nil => rfl
    | cons y ys ih => exact ih (x ++ sep ++ y)

theorem strings.EqualFold_empty_right (s : String) :
    strings.EqualFold s "" = true ↔ s = "" := by
  cases s with
  | mk data =>
    cases data <;> simp [strings.EqualFold, String.ext_iff]

theorem isIncluded_empty_iff (opts : List String) :
    isIncluded "" opts = true ↔ "" ∈ opts := by
  simp only [isIncluded, List.any_eq_true]
  constructor
  · rintro ⟨opt, hmem, hfold⟩
    rwa [(strings.EqualFold_empty_right opt).mp hfold] at hmem
  · intro hmem
    exact ⟨"", hmem, (strings.EqualFold_empty_right "").mpr rfl⟩

/-- C7: the enum string, enum string-slice and regexp flag constructors write
the default into the target immediately and unconditionally, without
validating it against the options or the pattern — in particular even when
the default violates the constraint. -/
theorem C7_defaults_not_validated (d : String) (ds opts : List String) (re : String → Bool) :
    (StringEnumFlag d opts).string = d ∧ (StringEnumFlag d opts).String = d ∧
    (StringSliceEnumFlag ds opts).value = ds ∧
    (StringRegexpFlag d re).value = d ∧ (StringRegexpFlag d re).String = d ∧
    (isIncluded d opts = false → (StringEnumFlag d opts).string = d) ∧
    (re d = false → (StringRegexpFlag d re).value = d) :=
  ⟨rfl, rfl, rfl, rfl, rfl, fun _ => rfl, fun _ => rfl⟩

theorem C7_witness :
    (StringEnumFlag "bad" ["a", "b"]).string = "bad" ∧
    (StringRegexpFlag "12a" digitsOnly).value = "12a" :=
  ⟨(C7_defaults_not_validated "bad" [] ["a", "b"] digitsOnly).2.2.2.2.2.1 (by decide),
   (C7_defaults_not_validated "12a" [] ["a", "b"] digitsOnly).2.2.2.2.2.2 (by decide)⟩

/-- C8: rendering the enum string-slice adapter joins the current values
with comma-space and wraps them in braces. -/
theorem C8_enumMultiValue_String (e : enumMultiValue) :
    e.String = "\x7b" ++ String.intercalate ", " e.value ++ "\x7d" := by
  simp [enumMultiValue.String, strings.Join_eq_intercalate]

/-- C9: for every adapter, a successful set followed by another successful
set leaves the adapter exactly as the second set alone would from the
initial state — the last write wins and no memory of the first call
remains. -/
theorem C9_last_write_wins :
    (∀ (s : stringValue) (v1 v2 : String), (s.Set v1).1.Set v2 = s.Set v2) ∧
    (∀ (b : boolValue) (v1 v2 : String), (b.Set v1).2 = none →
      ((b.Set v1).1.Set v2).2 = none → (b.Set v1).1.Set v2 = b.Set v2) ∧
    (∀ (e : enumValue) (v1 v2 : String), (e.Set v1).2 = none →
      ((e.Set v1).1.Set v2).2 = none → (e.Set v1).1.Set v2 = e.Set v2) ∧
    (∀ (e : enumMultiValue) (v1 v2 : String), (e.Set v1).2 = none →
      ((e.Set v1).1.Set v2).2 = none → (e.Set v1).1.Set v2 = e.Set v2) ∧
    (∀ (r : regexpValue) (v1 v2 : String), (r.Set v1).2 = none →
      ((r.Set v1).1.Set v2).2 = none → (r.Set v1).1.Set v2 = r.Set v2) := by
  refine ⟨fun s v1 v2 => rfl, fun b v1 v2 h1 h2 => rfl,
    fun e v1 v2 h1 h2 => ?_, fun e v1 v2 h1 h2 => ?_, fun r v1 v2 h1 h2 => ?_⟩
  · cases hc1 : isIncluded v1 e.options with
    | false => simp [enumValue.Set, hc1] at h1
    | true =>
      cases hc2 : isIncluded v2 e.options with
      | false => simp [enumValue.Set, hc1, hc2] at h2
      | true => simp [enumValue.Set, hc1, hc2]
  · cases hc1 : (strings.Split v1 ",").all (fun item => isIncluded item e.options) with
    | false => simp [enumMultiValue.Set, hc1] at h1
    | true =>
      cases hc2 : (strings.Split v2 ",").all (fun item => isIncluded item e.options) with
      | false => simp [enumMultiValue.Set, hc1, hc2] at h2
      | true => simp [enumMultiValue.Set, hc1, hc2]
  · cases hc1 : r.re v1 with
    | false => simp [regexpValue.Set, hc1] at h1
    | true =>
      cases hc2 : r.re v2 with
      | false => simp [regexpValue.Set, hc1, hc2] at h2
      | true => simp [regexpValue.Set, hc1, hc2]

theorem C9_witness :
    (boolValue.Set { bool := none } "1").1.Set "f" = boolValue.Set { bool := none } "f" ∧
    (enumValue.Set { string := "a", options := ["a", "b"] } "b").1.Set "A"
      = enumValue.Set { string := "a", options := ["a", "b"] } "A" ∧
    (enumMultiValue.Set { value := [], options := ["a", "b"] } "a,b").1.Set "b"
      = enumMultiValue.Set { value := [], options := ["a", "b"] } "b" ∧
    (regexpValue.Set { value := "", re := digitsOnly } "12").1.Set "3"
      = regexpValue.Set { value := "", re := digitsOnly } "3" :=
  ⟨C9_last_write_wins.2.1 { bool := none } "1" "f" (by decide) (by decide),
   C9_last_write_wins.2.2.1 { string := "a", options := ["a", "b"] } "b" "A"
     (by decide) (by decide),
   C9_last_write_wins.2.2.2.1 { value := [], options := ["a", "b"] } "a,b" "b"
     (by decide) (by decide),
   C9_last_write_wins.2.2.2.2 { value := "", re := digitsOnly } "12" "3"
     (by decide) (by decide)⟩

/-- C10: setting the empty string on the enum string-slice adapter splits
into the single empty item, so it succeeds — replacing the target by the
one-element sequence holding the empty string — exactly when the empty
string is one of the options, and otherwise fails with the invalid-enum
error. -/
theorem C10_enumMultiValue_Set_empty (e : enumMultiValue) :
    strings.Split "" "," = [""] ∧
    ((e.Set "").2 = none ↔ "" ∈ e.options) ∧
    ("" ∈ e.options → (e.Set "").1 = { e with value := [""] }) ∧
    ("" ∉ e.options →
      (e.Set "").2 = some (.invalidEnumValue e.options) ∧ (e.Set "").1 = e) := by
  have hsplit : strings.Split "" "," = [""] := by decide
  cases hm : isIncluded "" e.options with
  | false =>
    have hmem : "" ∉ e.options := by
      rw [← isIncluded_empty_iff]
      simp [hm]
    refine ⟨hsplit, ?_, ?_, ?_⟩ <;> simp [enumMultiValue.Set, hsplit, hm, hmem]
  | true =>
    have hmem : "" ∈ e.options := (isIncluded_empty_iff e.options).mp hm
    refine ⟨hsplit, ?_, ?_, ?_⟩ <;> simp [enumMultiValue.Set, hsplit, hm, hmem]

theorem C10_witness :
    (enumMultiValue.Set { value := ["a"], options := ["", "a"] } "").1
      = { value := [""], options := ["", "a"] } ∧
    (enumMultiValue.Set { value := ["a"], options := ["a"] } "").2
      = some (.invalidEnumValue ["a"]) :=
  ⟨(C10_enumMultiValue_Set_empty { value := ["a"], options := ["", "a"] }).2.2.1 (by decide),
   ((C10_enumMultiValue_Set_empty { value := ["a"], options := ["a"] }).2.2.2 (by decide)).1⟩
